import Mathlib

/-!
Verification development for the deepseek-api client core
(`src/lib.rs`, `src/models.rs`, `src/pow_solver.rs`).

The Rust code is shallowly embedded:
* `serde_json::Value` becomes the inductive `Json` (numbers are modelled as
  `Int`; object maps become ordered association lists whose insert replaces
  an existing key in place, which matches the per-key lookup/insert
  semantics of the serde map).
* `StreamingMessageBuilder` (models.rs) with `from_value`, `apply_update`,
  `build` becomes explicit state passing over `Json`.
* `SseParser::process_data_line`, `SseParser::finish` and the line loop of
  `response_to_chunk_stream` (lib.rs) become pure functions; the byte-level
  `serde_json::from_slice` text parser is passed in as an explicit function
  argument `parse : List UInt8 → Option Json`, so every theorem below holds
  for the actual JSON text parser in particular.
* The chunk loop of `DeepSeekAPI::complete_stream` becomes `complete_stream`
  over already-decoded underlying streams, with the continuation request
  transport abstracted as a function from message id to the next stream.
* `POWSolver::solve_challenge` becomes a state machine over an abstract
  wasm module environment that records the module stack pointer.
-/

/-- Model of `serde_json::Value`.  JSON numbers are modelled as `Int`
(no claim below depends on non-integral numbers). -/
inductive Json where
  | null
  | bool (b : Bool)
  | num (n : Int)
  | str (s : String)
  | arr (elems : List Json)
  | obj (fields : List (String × Json))

/-- First-match lookup in an object's field list (serde map key lookup). -/
def jlookup : List (String × Json) → String → Option Json
  | [], _ => none
  | (k', v) :: rest, k => if k' = k then some v else jlookup rest k

/-- Map insert: replace the value of an existing key in place, else append.
Embeds `serde_json::Map::insert` / `entry(..).or_insert(..)` as observed
through per-key lookups. -/
def objInsert : List (String × Json) → String → Json → List (String × Json)
  | [], k, v => [(k, v)]
  | (k', v') :: rest, k, v =>
    if k' = k then (k, v) :: rest else (k', v') :: objInsert rest k v

/-- `Value::get(key)`: keyed lookup succeeds only on objects. -/
def Json.get? : Json → String → Option Json
  | .obj fs, k => jlookup fs k
  | _, _ => none

/-- `Value::is_object`. -/
def Json.isObj : Json → Bool
  | .obj _ => true
  | _ => false

/-- The field list a tree node is given after the coercion
`if !current.is_object() { *current = json!({}) }` in `apply_update`
(models.rs): an object keeps its fields, anything else becomes `{}`. -/
def Json.objFields : Json → List (String × Json)
  | .obj fs => fs
  | _ => []

/-- `Value::as_str`. -/
def Json.asStr : Json → Option String
  | .str s => some s
  | _ => none

/-- `models::Message` (models.rs).  `inserted_at: f64` is modelled as `Int`
(its numeric value is irrelevant to every claim). -/
structure Message where
  message_id : Option Int
  parent_id : Option Int
  role : Option String
  inserted_at : Option Int
  content : String
  thinking_content : Option String
  status : Option String
  accumulated_token_usage : Option Int
deriving DecidableEq

/-- serde extraction of an `Option<i64>` field: missing or `null` is `None`,
a number deserializes, anything else is a type error. -/
def fieldOptInt (fs : List (String × Json)) (k : String) : Except String (Option Int) :=
  match jlookup fs k with
  | none => .ok none
  | some .null => .ok none
  | some (.num n) => .ok (some n)
  | some _ => .error ("invalid type for field " ++ k)

/-- serde extraction of an `Option<String>` field. -/
def fieldOptStr (fs : List (String × Json)) (k : String) : Except String (Option String) :=
  match jlookup fs k with
  | none => .ok none
  | some .null => .ok none
  | some (.str s) => .ok (some s)
  | some _ => .error ("invalid type for field " ++ k)

/-- serde extraction of a `#[serde(default)] String` field: missing gives
`""`, a string deserializes, anything else (including `null`) is an error. -/
def fieldStrD (fs : List (String × Json)) (k : String) : Except String String :=
  match jlookup fs k with
  | none => .ok ""
  | some (.str s) => .ok s
  | some _ => .error ("invalid type for field " ++ k)

/-- `serde_json::from_value::<Message>`: requires a JSON object; every field
is optional (`content` defaults to the empty string). -/
def messageFromJson : Json → Except String Message
  | .obj fs => do
    let message_id ← fieldOptInt fs "message_id"
    let parent_id ← fieldOptInt fs "parent_id"
    let role ← fieldOptStr fs "role"
    let inserted_at ← fieldOptInt fs "inserted_at"
    let content ← fieldStrD fs "content"
    let thinking_content ← fieldOptStr fs "thinking_content"
    let status ← fieldOptStr fs "status"
    let accumulated_token_usage ← fieldOptInt fs "accumulated_token_usage"
    .ok { message_id := message_id, parent_id := parent_id, role := role,
          inserted_at := inserted_at, content := content,
          thinking_content := thinking_content, status := status,
          accumulated_token_usage := accumulated_token_usage }
  | _ => .error "Message: expected object"

/-- `models::StreamingUpdate`: fields `p` (path), `v` (value), `o` (op). -/
structure StreamingUpdate where
  p : Option String
  v : Option Json
  o : Option String

/-- `serde_json::from_slice::<StreamingUpdate>` applied to an already parsed
value: requires an object; `Option` fields read `null`/missing as `None`. -/
def streamingUpdateFromJson : Json → Except String StreamingUpdate
  | .obj fs => do
    let p ← fieldOptStr fs "p"
    let v : Option Json :=
      match jlookup fs "v" with
      | none => none
      | some .null => none
      | some j => some j
    let o ← fieldOptStr fs "o"
    .ok { p := p, v := v, o := o }
  | _ => .error "StreamingUpdate: expected object"

/-- `models::StreamingMessageBuilder`: the accumulated patch tree. -/
structure StreamingMessageBuilder where
  inner : Json

/-- `StreamingMessageBuilder::default()`: `json!({})`. -/
def StreamingMessageBuilder.default : StreamingMessageBuilder := ⟨Json.obj []⟩

/-- `StreamingMessageBuilder::from_value`. -/
def StreamingMessageBuilder.from_value (v : Json) : Except String StreamingMessageBuilder :=
  .ok ⟨v⟩

/-- Embeds Rust `path.split('/')` (models.rs `apply_update`): split the path
on `'/'`; splitting the empty string yields `[""]`. -/
def splitPathAux : List Char → List Char → List String
  | [], acc => [String.mk acc.reverse]
  | c :: rest, acc =>
    if c = '/' then String.mk acc.reverse :: splitPathAux rest []
    else splitPathAux rest (c :: acc)

/-- `path.split('/').collect::<Vec<_>>()`. -/
def splitPath (path : String) : List String := splitPathAux path.toList []

/-- The key walk and final mutation of `StreamingMessageBuilder::apply_update`
(models.rs): walk the intermediate segments, replacing any non-object with an
empty object and auto-vivifying missing children as empty objects; at the
final segment apply `SET` (insert/overwrite) or `APPEND` (string
concatenation, absent target read as `""`). -/
def applyKeys : Json → List String → String → Json → Except String Json
  | _, [], _, _ => .error "Empty path"
  | cur, [k], operation, value =>
    match operation with
    | "SET" => .ok (.obj (objInsert cur.objFields k value))
    | "APPEND" =>
      let entry := (jlookup cur.objFields k).getD (.str "")
      match entry, value with
      | .str s, .str a => .ok (.obj (objInsert cur.objFields k (.str (s ++ a))))
      | _, _ => .error ("APPEND only supported on strings at " ++ k)
    | _ => .error ("Unknown operation " ++ operation)
  | cur, k :: k2 :: rest, operation, value =>
    let child := (jlookup cur.objFields k).getD (.obj [])
    match applyKeys child (k2 :: rest) operation value with
    | .ok c => .ok (.obj (objInsert cur.objFields k c))
    | .error e => .error e

/-- `StreamingMessageBuilder::apply_update` (models.rs): requires `p` and
`v`, defaults the operation to `"SET"`, splits the path and mutates the
tree.  A failed update aborts the stream in every caller, so the partially
vivified tree of a failing call is unobservable and the failure is modelled
as a plain error. -/
def StreamingMessageBuilder.apply_update (b : StreamingMessageBuilder)
    (update : StreamingUpdate) : Except String StreamingMessageBuilder :=
  match update.p with
  | none => .error "Missing path"
  | some path =>
    match update.v with
    | none => .error "Missing v"
    | some value =>
      let operation := update.o.getD "SET"
      let keys := splitPath path
      if keys.isEmpty then .error "Empty path"
      else
        match applyKeys b.inner keys operation value with
        | .ok t => .ok ⟨t⟩
        | .error e => .error e

/-- `StreamingMessageBuilder::build` (models.rs): unwrap a nested `response`
object if present, else deserialize the whole tree. -/
def StreamingMessageBuilder.build (b : StreamingMessageBuilder) : Except String Message :=
  match b.inner.get? "response" with
  | some r => messageFromJson r
  | none => messageFromJson b.inner

/-- `StreamChunk` (lib.rs). -/
inductive StreamChunk where
  | content (text : String)
  | thinking (text : String)
  | message (m : Message)
deriving DecidableEq

/-- `SseParser` (lib.rs): per-stream decoding state. -/
structure SseParser where
  builder : StreamingMessageBuilder
  current_property : Option String
  toast_error : Option String

/-- `SseParser::new`. -/
def SseParser.new : SseParser := ⟨StreamingMessageBuilder.default, none, none⟩

/-- The delta-chunk computation duplicated at lib.rs 585-599 and 612-622:
a textual value at the content path yields a `Content` chunk, at the
thinking path a `Thinking` chunk, elsewhere nothing. -/
def deltaChunk (path : String) (v : Option Json) : Option StreamChunk :=
  if path = "response/content" then
    v.bind (fun x => (Json.asStr x).map StreamChunk.content)
  else if path = "response/thinking_content" then
    v.bind (fun x => (Json.asStr x).map StreamChunk.thinking)
  else none

/-- The patch-dispatch part of `SseParser::process_data_line` (lib.rs
569-638), after the JSON text has been decoded: `data` is the parsed
`StreamingUpdate` and `full_value` the same payload parsed as a raw value. -/
def processUpdate (ps : SseParser) (data : StreamingUpdate) (full_value : Json) :
    Except String (SseParser × Option StreamChunk) :=
  if data.v.isNone && data.p.isNone then
    if (full_value.get? "response").isSome then
      .ok ({ ps with builder := ⟨full_value⟩ }, none)
    else
      .ok (ps, none)
  else
    let is_new_object := (data.v.map Json.isObj).getD false && (data.p.getD "").isEmpty
    let path := data.p.getD ""
    let content_to_yield :=
      if !is_new_object && !path.isEmpty then deltaChunk path data.v else none
    if is_new_object then
      match data.v with
      | some v =>
        if (v.get? "response").isSome then .ok ({ ps with builder := ⟨v⟩ }, none)
        else .ok (ps, none)
      | none => .ok (ps, none)
    else if path.isEmpty then
      match ps.current_property with
      | some cur =>
        let continuation_content := deltaChunk cur data.v
        let update : StreamingUpdate := { data with p := some cur, o := some "APPEND" }
        match ps.builder.apply_update update with
        | .ok b => .ok ({ ps with builder := b }, continuation_content)
        | .error e => .error e
      | none => .ok (ps, none)
    else
      match ps.builder.apply_update data with
      | .ok b => .ok ({ ps with builder := b, current_property := some path }, content_to_yield)
      | .error e => .error e

/-- `SseParser::process_data_line` (lib.rs): `parse` stands for
`serde_json::from_slice::<Value>` on the payload bytes (`none` = not valid
JSON).  An error-shaped payload aborts; otherwise the payload must
deserialize as a `StreamingUpdate` and is dispatched. -/
def process_data_line (parse : List UInt8 → Option Json) (ps : SseParser)
    (data_json : List UInt8) : Except String (SseParser × Option StreamChunk) :=
  let errText :=
    match parse data_json with
    | some val =>
      match val.get? "type", val.get? "content" with
      | some (.str "error"), some (.str c) => some c
      | _, _ => none
    | none => none
  match errText with
  | some content => .error ("API error: " ++ content)
  | none =>
    match parse data_json with
    | none => .error "invalid JSON in data line"
    | some val =>
      match streamingUpdateFromJson val with
      | .error e => .error e
      | .ok data => processUpdate ps data val

/-- `SseParser::finish` (lib.rs): a recorded toast error aborts, otherwise
build the final message. -/
def SseParser.finish (ps : SseParser) : Except String Message :=
  match ps.toast_error with
  | some err => .error ("API error: " ++ err)
  | none => ps.builder.build

/-- The bytes of the line `event: finish`. -/
def finishLine : List UInt8 := [101, 118, 101, 110, 116, 58, 32, 102, 105, 110, 105, 115, 104]

/-- The bytes of the line `event: toast`. -/
def toastLine : List UInt8 := [101, 118, 101, 110, 116, 58, 32, 116, 111, 97, 115, 116]

/-- The bytes of the line marker `data: ` (6 bytes). -/
def dataMark : List UInt8 := [100, 97, 116, 97, 58, 32]

/-- Outcome of running the line loop over a list of complete lines:
either the stream terminated (final message yielded or an error yielded),
or it is still pending with the parser state to carry forward. -/
inductive RunResult where
  | terminated (chunks : List StreamChunk) (fault : Option String)
  | pending (chunks : List StreamChunk) (parser : SseParser)
deriving Inhabited

/-- Prepend already-yielded chunks to a run outcome. -/
def RunResult.prepend (cs : List StreamChunk) : RunResult → RunResult
  | .terminated cs' f => .terminated (cs ++ cs') f
  | .pending cs' ps => .pending (cs ++ cs') ps

/-- The per-line dispatch of `response_to_chunk_stream` (lib.rs 671-702),
iterated over a list of complete (newline-stripped) lines: blank lines are
skipped, `event: finish` finalizes and terminates, `event: toast` is inert,
`data: ` lines are processed (errors terminate), other lines are ignored. -/
def runLines (parse : List UInt8 → Option Json) (ps : SseParser) :
    List (List UInt8) → RunResult
  | [] => .pending [] ps
  | line :: rest =>
    if line = [] then runLines parse ps rest
    else if line = finishLine then
      match ps.finish with
      | .ok m => .terminated [.message m] none
      | .error e => .terminated [] (some e)
    else if line = toastLine then runLines parse ps rest
    else if dataMark.isPrefixOf line then
      match process_data_line parse ps (line.drop 6) with
      | .ok (ps', some c) => RunResult.prepend [c] (runLines parse ps' rest)
      | .ok (ps', none) => runLines parse ps' rest
      | .error _e => .terminated [] (some _e)
    else runLines parse ps rest

/-- The buffer line-extraction loop of `response_to_chunk_stream`
(lib.rs 668-670): split off every complete line up to (and excluding) a
newline, consuming the newline; the trailing newline-free remainder stays
buffered.  `acc` is the reversed partial line read so far. -/
def splitLinesAux : List UInt8 → List UInt8 → List (List UInt8) × List UInt8
  | [], acc => ([], acc.reverse)
  | b :: rest, acc =>
    if b = 10 then
      let r := splitLinesAux rest []
      (acc.reverse :: r.1, r.2)
    else splitLinesAux rest (b :: acc)

/-- Split a byte buffer into complete lines plus the buffered remainder. -/
def splitLines (bytes : List UInt8) : List (List UInt8) × List UInt8 :=
  splitLinesAux bytes []

/-- Caller-visible output of one decoded stream: the yielded chunks in
order, and the error (if any) that terminated the stream. -/
structure StreamOut where
  chunks : List StreamChunk
  fault : Option String
deriving Inhabited

/-- The block loop of `response_to_chunk_stream` (lib.rs 659-704): append
each received block to the buffer, process every complete line, and stop as
soon as the line loop terminates; when the byte stream ends, the buffered
remainder is discarded. -/
def runBlocks (parse : List UInt8 → Option Json) (ps : SseParser)
    (buffer : List UInt8) : List (List UInt8) → StreamOut
  | [] => ⟨[], none⟩
  | b :: rest =>
    let split := splitLines (buffer ++ b)
    match runLines parse ps split.1 with
    | .terminated cs f => ⟨cs, f⟩
    | .pending cs ps' =>
      let out := runBlocks parse ps' split.2 rest
      ⟨cs ++ out.chunks, out.fault⟩

/-- `response_to_chunk_stream` (lib.rs): decode a response body, delivered
as a list of byte blocks, into a stream of chunks. -/
def response_to_chunk_stream (parse : List UInt8 → Option Json)
    (blocks : List (List UInt8)) : StreamOut :=
  runBlocks parse SseParser.new [] blocks

/-- How the inner `while let` of `DeepSeekAPI::complete_stream` (lib.rs
271-284) leaves one underlying stream. -/
inductive InnerEnd where
  | terminal (m : Message)
  | continueWith (id : Option Int)
  | faulted (e : String)
  | ranOut

/-- The inner chunk loop of `DeepSeekAPI::complete_stream` (lib.rs 271-284):
forward deltas; an `INCOMPLETE` final message is not forwarded and its
identifier is captured; any other final message is forwarded as the terminal
output; a stream error is re-yielded and ends everything. -/
def runInner : List StreamChunk → Option String → List StreamChunk × InnerEnd
  | [], none => ([], .ranOut)
  | [], some e => ([], .faulted e)
  | .content c :: rest, f =>
    let r := runInner rest f
    (.content c :: r.1, r.2)
  | .thinking t :: rest, f =>
    let r := runInner rest f
    (.thinking t :: r.1, r.2)
  | .message m :: _, _ =>
    if m.status = some "INCOMPLETE" then ([], .continueWith m.message_id)
    else ([.message m], .terminal m)

/-- Caller-visible output of the continuation orchestrator: the forwarded
chunks, the message ids of the continuation requests issued (in order), and
the terminal error if one was forwarded. -/
structure OrchestratorOut where
  chunks : List StreamChunk
  requests : List Int
  fault : Option String
deriving DecidableEq

/-- The continuation loop of `DeepSeekAPI::complete_stream` (lib.rs
270-326), with the transport abstracted: `s` is the decoded chunk stream of
the current response and `cont id` the decoded stream of the continuation
request for message `id`.  `fuel` bounds the number of continuation
iterations only so that the Rust `loop` is a total function; every theorem
below holds for arbitrary fuel. -/
def complete_stream (cont : Int → StreamOut) : Nat → StreamOut → OrchestratorOut
  | fuel, s =>
    let r := runInner s.chunks s.fault
    match r.2 with
    | .terminal _ => ⟨r.1, [], none⟩
    | .faulted err => ⟨r.1, [], some err⟩
    | .ranOut => ⟨r.1, [], none⟩
    | .continueWith none => ⟨r.1, [], none⟩
    | .continueWith (some id) =>
      match fuel with
      | 0 => ⟨r.1, [], none⟩
      | f + 1 =>
        let out := complete_stream cont f (cont id)
        ⟨r.1 ++ out.chunks, id :: out.requests, out.fault⟩

/-- `pow_solver::Challenge`.  `difficulty: f64` is modelled as `Int`; it is
only passed through to the module. -/
structure Challenge where
  salt : String
  expire_at : Int
  challenge : String
  difficulty : Int
  algorithm : String
  signature : String
  target_path : String

/-- `pow_solver::SolveResponse`: the proof-token payload assembled on
success (the compact serialization and base64 step is a pure encoding of
this record and is not modelled further). -/
structure SolveResponse where
  algorithm : String
  challenge : String
  salt : String
  answer : Int
  signature : String
  target_path : String
deriving DecidableEq

/-- Abstract behaviour of the wasm module for one `solve_challenge` call:
the outcome of each allocator call (by call index; `none` = the call
fails), whether the `wasm_solve` call succeeds, and the status word and
answer the module leaves in the output region. -/
structure WasmEnv where
  allocResult : Nat → Option Int
  solveOk : Bool
  status : Int
  answer : Int

/-- Observable wasm module state: the auxiliary stack pointer and how many
allocator calls have been made. -/
structure WasmState where
  sp : Int
  allocCount : Nat
deriving DecidableEq

/-- `__wbindgen_add_to_stack_pointer`: adjust the stack pointer by `n` and
return the new value. -/
def add_to_stack_pointer (s : WasmState) (n : Int) : WasmState × Int :=
  ({ s with sp := s.sp + n }, s.sp + n)

/-- `POWSolver::write_str_to_memory` (pow_solver.rs): allocate through the
module allocator and return (pointer, length); fails if the allocator call
fails. -/
def write_str_to_memory (env : WasmEnv) (s : WasmState) (data : String) :
    Option (WasmState × (Int × Int)) :=
  match env.allocResult s.allocCount with
  | some ptr => some ({ s with allocCount := s.allocCount + 1 }, (ptr, Int.ofNat data.length))
  | none => none

/-- `POWSolver::solve_challenge` (pow_solver.rs 88-126): reserve 16 bytes on
the module stack, write the challenge and prefix strings, call the module
solve function, read the status word, and on success assemble the
`SolveResponse`.  Returns the final module state together with the result;
an early `?` return leaves the state as it was at that point. -/
def solve_challenge (env : WasmEnv) (s0 : WasmState) (ch : Challenge) :
    WasmState × Except String SolveResponse :=
  let pre := ch.salt ++ "_" ++ toString ch.expire_at ++ "_"
  let r1 := add_to_stack_pointer s0 (-16)
  let s1 := r1.1
  match write_str_to_memory env s1 ch.challenge with
  | none => (s1, .error "alloc failed")
  | some (s2, _) =>
    match write_str_to_memory env s2 pre with
    | none => (s2, .error "alloc failed")
    | some (s3, _) =>
      if env.solveOk = false then (s3, .error "wasm_solve call failed")
      else if env.status = 0 then
        let r2 := add_to_stack_pointer s3 16
        (r2.1, .error "WASM solve returned status 0 (failure)")
      else
        let r3 := add_to_stack_pointer s3 16
        (r3.1, .ok { algorithm := ch.algorithm, challenge := ch.challenge,
                     salt := ch.salt, answer := env.answer,
                     signature := ch.signature, target_path := ch.target_path })

/-- Observation: read the value at a key path, descending only through
objects. -/
def getAtKeys : Json → List String → Option Json
  | t, [] => some t
  | .obj fs, k :: rest =>
    match jlookup fs k with
    | some c => getAtKeys c rest
    | none => none
  | _, _ :: _ => none

/-- Observation: the string at a key path, reading an absent target as the
empty string (mirroring how `APPEND` reads its target); a non-string target
is `none`. -/
def stringAt (t : Json) (keys : List String) : Option String :=
  match getAtKeys t keys with
  | none => some ""
  | some (.str s) => some s
  | some _ => none

/-- An `APPEND` patch frame carrying string delta `d` at `path`. -/
def mkAppend (path d : String) : StreamingUpdate :=
  ⟨some path, some (.str d), some "APPEND"⟩

/-- Apply a sequence of `APPEND` patches with the given string deltas at one
path, stopping at the first failure. -/
def applyAppends (b : StreamingMessageBuilder) (path : String) :
    List String → Except String StreamingMessageBuilder
  | [] => .ok b
  | d :: ds =>
    match b.apply_update (mkAppend path d) with
    | .ok b' => applyAppends b' path ds
    | .error e => .error e

/-- Observation: run the line loop over all complete lines of a single byte
buffer (what the decoder does when the whole body arrives in one block),
discarding the trailing remainder. -/
def runAll (parse : List UInt8 → Option Json) (ps : SseParser)
    (bytes : List UInt8) : StreamOut :=
  match runLines parse ps (splitLines bytes).1 with
  | .terminated cs f => ⟨cs, f⟩
  | .pending cs _ => ⟨cs, none⟩

/-! ## Patch-engine lemmas -/

lemma jlookup_objInsert_self (fs : List (String × Json)) (k : String) (v : Json) :
    jlookup (objInsert fs k v) k = some v := by
  induction fs with
  | nil => simp [objInsert, jlookup]
  | cons hd tl ih =>
    obtain ⟨k', v'⟩ := hd
    by_cases h : k' = k
    · simp [objInsert, h, jlookup]
    · simp [objInsert, h, jlookup, ih]

lemma getAtKeys_cons (t : Json) (k : String) (tail : List String) :
    getAtKeys t (k :: tail) =
      match jlookup t.objFields k with
      | some c => getAtKeys c tail
      | none => none := by
  cases t <;> rfl

lemma applyKeys_single (t : Json) (k : String) (operation : String) (value : Json) :
    applyKeys t [k] operation value =
      match operation with
      | "SET" => .ok (.obj (objInsert t.objFields k value))
      | "APPEND" =>
        match (jlookup t.objFields k).getD (.str ""), value with
        | .str s, .str a => .ok (.obj (objInsert t.objFields k (.str (s ++ a))))
        | _, _ => .error ("APPEND only supported on strings at " ++ k)
      | _ => .error ("Unknown operation " ++ operation) := by
  rfl

lemma applyKeys_cons_cons (t : Json) (k k2 : String) (rest : List String)
    (operation : String) (value : Json) :
    applyKeys t (k :: k2 :: rest) operation value =
      match applyKeys ((jlookup t.objFields k).getD (.obj [])) (k2 :: rest) operation value with
      | .ok c => .ok (.obj (objInsert t.objFields k c))
      | .error e => .error e := by
  rfl

lemma applyKeys_ok_obj :
    ∀ (keys : List String) (t : Json) (operation : String) (value t' : Json),
      applyKeys t keys operation value = .ok t' → ∃ fs, t' = .obj fs := by
  intro keys t operation value t' h
  match keys with
  | [] => simp [applyKeys] at h
  | [k] =>
    rw [applyKeys_single] at h
    split at h
    · exact ⟨_, (Except.ok.inj h).symm⟩
    · split at h
      · exact ⟨_, (Except.ok.inj h).symm⟩
      · exact absurd h (by simp)
    · exact absurd h (by simp)
  | k :: k2 :: rest =>
    rw [applyKeys_cons_cons] at h
    split at h
    · exact ⟨_, (Except.ok.inj h).symm⟩
    · exact absurd h (by simp)

lemma stringAt_emptyObj (k : String) (tail : List String) :
    stringAt (.obj []) (k :: tail) = some "" := by
  simp [stringAt, getAtKeys, jlookup]

lemma stringAt_child (t : Json) (k : String) (tail : List String) (acc : String)
    (htail : tail ≠ []) (h : stringAt t (k :: tail) = some acc) :
    stringAt ((jlookup t.objFields k).getD (.obj [])) tail = some acc := by
  rcases hj : jlookup t.objFields k with _ | c
  · have hacc : acc = "" := by
      rw [stringAt, getAtKeys_cons, hj] at h
      simpa using h.symm
    subst hacc
    match tail, htail with
    | k2 :: rest, _ => simpa using stringAt_emptyObj k2 rest
  · rw [stringAt, getAtKeys_cons, hj] at h
    simpa [stringAt] using h

lemma append_step :
    ∀ (keys : List String) (t : Json) (acc d : String),
      keys ≠ [] → stringAt t keys = some acc →
      ∃ t', applyKeys t keys "APPEND" (.str d) = .ok t' ∧
        stringAt t' keys = some (acc ++ d) := by
  intro keys
  induction keys with
  | nil => intro t acc d h; exact absurd rfl h
  | cons k tail ih =>
    intro t acc d _ hs
    cases htail : tail with
    | nil =>
      subst htail
      rcases hj : jlookup t.objFields k with _ | c
      · have hacc : acc = "" := by
          rw [stringAt, getAtKeys_cons, hj] at hs
          simpa using hs.symm
        subst hacc
        refine ⟨.obj (objInsert t.objFields k (.str ("" ++ d))), ?_, ?_⟩
        · rw [applyKeys_single, hj]; rfl
        · simp [stringAt, getAtKeys_cons, Json.objFields, jlookup_objInsert_self, getAtKeys]
      · rw [stringAt, getAtKeys_cons, hj] at hs
        match c, hs with
        | .str s, hs =>
          have hacc : acc = s := by simpa [getAtKeys] using hs.symm
          subst hacc
          refine ⟨.obj (objInsert t.objFields k (.str (acc ++ d))), ?_, ?_⟩
          · rw [applyKeys_single, hj]; rfl
          · simp [stringAt, getAtKeys_cons, Json.objFields, jlookup_objInsert_self, getAtKeys]
    | cons k2 rest =>
      subst htail
      have hchild := stringAt_child t k (k2 :: rest) acc (by simp) hs
      obtain ⟨c', hc', hsc'⟩ := ih ((jlookup t.objFields k).getD (.obj [])) acc d (by simp) hchild
      refine ⟨.obj (objInsert t.objFields k c'), ?_, ?_⟩
      · rw [applyKeys_cons_cons, hc']
      · rw [stringAt, getAtKeys_cons]
        simp only [Json.objFields, jlookup_objInsert_self]
        rw [stringAt] at hsc'
        exact hsc'

lemma splitPathAux_ne_nil : ∀ (cs : List Char) (acc : List Char), splitPathAux cs acc ≠ [] := by
  intro cs
  induction cs with
  | nil => intro acc; simp [splitPathAux]
  | cons c rest ih =>
    intro acc
    by_cases h : c = '/' <;> simp [splitPathAux, h, ih]

lemma splitPath_ne_nil (path : String) : splitPath path ≠ [] :=
  splitPathAux_ne_nil path.toList []

lemma applyKeys_prefix_obj :
    ∀ (keys : List String) (t : Json) (operation : String) (value t' : Json),
      applyKeys t keys operation value = .ok t' →
      ∀ i, i + 1 < keys.length →
        ∃ fs, getAtKeys t' (keys.take (i + 1)) = some (.obj fs) := by
  intro keys
  induction keys with
  | nil => intro t operation value t' h; simp [applyKeys] at h
  | cons k tail ih =>
    intro t operation value t' h i hi
    cases tail with
    | nil => simp at hi
    | cons k2 rest =>
      rw [applyKeys_cons_cons] at h
      rcases hrec : applyKeys ((jlookup t.objFields k).getD (.obj [])) (k2 :: rest) operation value
        with e | c
      · rw [hrec] at h; exact absurd h (by simp)
      · rw [hrec] at h
        have ht' : t' = .obj (objInsert t.objFields k c) := (Except.ok.inj h).symm
        subst ht'
        cases i with
        | zero =>
          obtain ⟨fs, hfs⟩ := applyKeys_ok_obj (k2 :: rest) _ operation value c hrec
          refine ⟨fs, ?_⟩
          rw [List.take_succ_cons, List.take_zero, getAtKeys_cons]
          simp [Json.objFields, jlookup_objInsert_self, getAtKeys, hfs]
        | succ j =>
          have hj : j + 1 < (k2 :: rest).length := by
            simpa [Nat.succ_lt_succ_iff] using hi
          obtain ⟨fs, hfs⟩ := ih _ operation value c hrec j hj
          refine ⟨fs, ?_⟩
          rw [List.take_succ_cons, getAtKeys_cons]
          simp only [Json.objFields, jlookup_objInsert_self]
          exact hfs

/-! ## Claim C4 -/

/-- C4: for every path and every N ≥ 0, applying N sequential APPEND patches
with string deltas d1..dN at that path, starting from a tree whose target is
absent or the empty string, succeeds and leaves the concatenation d1++…++dN
at that path. -/
theorem apply_update_append_accumulation (path : String) (ds : List String) (t : Json)
    (h : stringAt t (splitPath path) = some "") :
    ∃ b', applyAppends ⟨t⟩ path ds = .ok b' ∧
      stringAt b'.inner (splitPath path) = some (ds.foldl (· ++ ·) "") := by
  suffices H : ∀ (ds : List String) (t : Json) (acc : String),
      stringAt t (splitPath path) = some acc →
      ∃ b', applyAppends ⟨t⟩ path ds = .ok b' ∧
        stringAt b'.inner (splitPath path) = some (ds.foldl (· ++ ·) acc) from
    H ds t "" h
  intro ds
  induction ds with
  | nil => intro t acc h; exact ⟨⟨t⟩, rfl, h⟩
  | cons d ds ih =>
    intro t acc h
    obtain ⟨t', ht', hs'⟩ := append_step (splitPath path) t acc d (splitPath_ne_nil path) h
    have happly : StreamingMessageBuilder.apply_update ⟨t⟩ (mkAppend path d) = .ok ⟨t'⟩ := by
      unfold StreamingMessageBuilder.apply_update mkAppend
      simp only
      rw [if_neg (by simpa [List.isEmpty_iff] using splitPath_ne_nil path)]
      rw [show (some "APPEND").getD "SET" = "APPEND" from rfl, ht']
    obtain ⟨b', hb', hsb'⟩ := ih t' (acc ++ d) hs'
    refine ⟨b', ?_, ?_⟩
    · unfold applyAppends
      rw [happly]
      exact hb'
    · simpa using hsb'

/-- C4 witness: two APPENDs at `response/content` on the empty tree leave
their concatenation there. -/
theorem apply_update_append_accumulation_witness :
    ∃ b', applyAppends ⟨Json.obj []⟩ "response/content" ["Hi", " there"] = .ok b' ∧
      stringAt b'.inner (splitPath "response/content") =
        some ((["Hi", " there"] : List String).foldl (· ++ ·) "") :=
  apply_update_append_accumulation "response/content" ["Hi", " there"] (Json.obj [])
    (by decide)

/-! ## Claim C10 -/

/-- C10: after every successful `apply_update` with path `p`, every
non-terminal segment of that path resolves to an object node (missing or
non-object intermediates having been turned into objects, never arrays). -/
theorem apply_update_intermediates_objects (b b' : StreamingMessageBuilder)
    (u : StreamingUpdate) (path : String)
    (hp : u.p = some path)
    (h : b.apply_update u = .ok b') :
    ∀ i, i + 1 < (splitPath path).length →
      ∃ fs, getAtKeys b'.inner ((splitPath path).take (i + 1)) = some (.obj fs) := by
  intro i hi
  unfold StreamingMessageBuilder.apply_update at h
  rw [hp] at h
  rcases hv : u.v with _ | value
  · rw [hv] at h; exact absurd h (by simp)
  · rw [hv] at h
    simp only at h
    by_cases he : (splitPath path).isEmpty
    · rw [if_pos he] at h; exact absurd h (by simp)
    · rw [if_neg he] at h
      rcases hk : applyKeys b.inner (splitPath path) (u.o.getD "SET") value with e | t'
      · rw [hk] at h; exact absurd h (by simp)
      · rw [hk] at h
        have hb' : b' = ⟨t'⟩ := (Except.ok.inj h).symm
        subst hb'
        exact applyKeys_prefix_obj (splitPath path) b.inner (u.o.getD "SET") value t' hk i hi

/-- C10 witness: a SET at `a/b/c` on a tree whose `a` holds a number
succeeds and leaves objects at `a` and at `a/b`. -/
theorem apply_update_intermediates_objects_witness :
    (∃ fs, getAtKeys
      (StreamingMessageBuilder.mk (Json.obj [("a", Json.num 5)])
        |>.apply_update ⟨some "a/b/c", some (Json.str "x"), none⟩
        |>.toOption.getD StreamingMessageBuilder.default).inner
      ((splitPath "a/b/c").take 1) = some (.obj fs)) ∧
    (∃ fs, getAtKeys
      (StreamingMessageBuilder.mk (Json.obj [("a", Json.num 5)])
        |>.apply_update ⟨some "a/b/c", some (Json.str "x"), none⟩
        |>.toOption.getD StreamingMessageBuilder.default).inner
      ((splitPath "a/b/c").take 2) = some (.obj fs)) := by
  have h1 := apply_update_intermediates_objects
    (StreamingMessageBuilder.mk (Json.obj [("a", Json.num 5)]))
    (StreamingMessageBuilder.mk (Json.obj
      [("a", Json.obj [("b", Json.obj [("c", Json.str "x")])])]))
    ⟨some "a/b/c", some (Json.str "x"), none⟩ "a/b/c" rfl rfl
  exact ⟨by simpa using h1 0 (by decide), by simpa using h1 1 (by decide)⟩

/-! ## Claim C8 -/

/-- C8: a whole-tree replace (`from_value`) followed by `build` deserializes
the `response` sub-object as the `Message` when the tree has a `response`
key, and otherwise attempts to deserialize the whole tree. -/
theorem build_after_from_value (v : Json) (b : StreamingMessageBuilder)
    (h : StreamingMessageBuilder.from_value v = .ok b) :
    (∀ r, v.get? "response" = some r → b.build = messageFromJson r) ∧
    (v.get? "response" = none → b.build = messageFromJson v) := by
  have hb : b = ⟨v⟩ := (Except.ok.inj h).symm
  subst hb
  constructor
  · intro r hr
    unfold StreamingMessageBuilder.build
    simp only [hr]
  · intro hr
    unfold StreamingMessageBuilder.build
    simp only [hr]

/-- C8 witness: replacing with an object holding a `response` key and
building yields exactly that sub-object deserialized as a `Message`. -/
theorem build_after_from_value_witness :
    (StreamingMessageBuilder.mk
        (Json.obj [("response", Json.obj [("content", Json.str "Hi")])])).build =
      messageFromJson (Json.obj [("content", Json.str "Hi")]) :=
  (build_after_from_value (Json.obj [("response", Json.obj [("content", Json.str "Hi")])])
    ⟨Json.obj [("response", Json.obj [("content", Json.str "Hi")])]⟩ rfl).1
    (Json.obj [("content", Json.str "Hi")]) rfl

/-! ## Claim C2 -/

/-- C2 counterexample: a patch frame with absent path whose value is the
object `{"a":"b"}` (which has no `response` key) does not replace the tree —
the parser state is returned unchanged, refuting the claim that any object
value at an empty/absent path replaces the whole tree. -/
theorem empty_path_object_no_replace_cex :
    process_data_line (fun _ => some (Json.obj [("v", Json.obj [("a", Json.str "b")])]))
      SseParser.new [118] = .ok (SseParser.new, none) ∧
    SseParser.new.builder.inner ≠ Json.obj [("a", Json.str "b")] := by
  constructor
  · rfl
  · intro h
    simp [SseParser.new, StreamingMessageBuilder.default] at h

/-- C2 amended: a patch frame with empty or absent path and an object value
replaces the entire tree with that object exactly when the object contains a
`response` key; otherwise it leaves the parser state unchanged.  In both
cases no chunk is emitted. -/
theorem empty_path_object_replace (ps : SseParser) (u : StreamingUpdate)
    (fv v : Json) (hv : u.v = some v) (hobj : v.isObj = true)
    (hp : u.p = none ∨ u.p = some "") :
    processUpdate ps u fv =
      .ok (if (v.get? "response").isSome then { ps with builder := ⟨v⟩ } else ps, none) := by
  have hpE : (u.p.getD "").isEmpty = true := by
    rcases hp with hp | hp <;> rw [hp] <;> rfl
  unfold processUpdate
  rw [hv]
  by_cases hresp : (v.get? "response").isSome <;>
    simp [hobj, hpE, hresp]

/-- C2 amended witness: an object value with a `response` key at empty path
does replace the tree. -/
theorem empty_path_object_replace_witness :
    processUpdate SseParser.new
      ⟨some "", some (Json.obj [("response", Json.obj [])]), none⟩ Json.null =
      .ok (if ((Json.obj [("response", Json.obj [])]).get? "response").isSome
             then { SseParser.new with builder := ⟨Json.obj [("response", Json.obj [])]⟩ }
             else SseParser.new, none) :=
  empty_path_object_replace SseParser.new
    ⟨some "", some (Json.obj [("response", Json.obj [])]), none⟩ Json.null
    (Json.obj [("response", Json.obj [])]) rfl rfl (Or.inr rfl)

/-! ## Claim C5 -/

/-- C5: a frame with empty path and a non-object value, processed in a
parser state whose most recent explicit path is `P`, produces exactly the
same result (tree, chunk and active path) as the explicit frame
`{path: P, op: APPEND, value: same}`. -/
theorem continuation_inference (ps : SseParser) (P : String) (v : Json)
    (o : Option String) (fv fv' : Json)
    (hcur : ps.current_property = some P) (hP : P ≠ "") (hv : v.isObj = false) :
    processUpdate ps ⟨some "", some v, o⟩ fv =
      processUpdate ps ⟨some P, some v, some "APPEND"⟩ fv' := by
  obtain ⟨bld, cp, te⟩ := ps
  have hc : cp = some P := hcur
  subst hc
  have h0 : "".isEmpty = true := rfl
  have hPE : P.isEmpty = false := by
    cases hpe : P.isEmpty
    · rfl
    · exact absurd ((String.isEmpty_iff P).mp hpe) hP
  unfold processUpdate
  simp [deltaChunk, hv, hPE, h0]

/-- C5 witness: concrete continuation frame versus its explicit APPEND
counterpart at the active path `response/content`. -/
theorem continuation_inference_witness :
    processUpdate ⟨StreamingMessageBuilder.default, some "response/content", none⟩
      ⟨some "", some (Json.str "x"), none⟩ Json.null =
      processUpdate ⟨StreamingMessageBuilder.default, some "response/content", none⟩
        ⟨some "response/content", some (Json.str "x"), some "APPEND"⟩ (Json.bool true) :=
  continuation_inference ⟨StreamingMessageBuilder.default, some "response/content", none⟩
    "response/content" (Json.str "x") none Json.null (Json.bool true) rfl (by decide) rfl

/-! ## Decoder lemmas -/

lemma RunResult.prepend_nil (r : RunResult) : RunResult.prepend [] r = r := by
  cases r <;> simp [RunResult.prepend]

lemma RunResult.prepend_prepend (a b : List StreamChunk) (r : RunResult) :
    RunResult.prepend a (RunResult.prepend b r) = RunResult.prepend (a ++ b) r := by
  cases r <;> simp [RunResult.prepend]

lemma runLines_cons (parse : List UInt8 → Option Json) (ps : SseParser)
    (line : List UInt8) (rest : List (List UInt8)) :
    runLines parse ps (line :: rest) =
      if line = [] then runLines parse ps rest
      else if line = finishLine then
        match ps.finish with
        | .ok m => .terminated [.message m] none
        | .error e => .terminated [] (some e)
      else if line = toastLine then runLines parse ps rest
      else if dataMark.isPrefixOf line then
        match process_data_line parse ps (line.drop 6) with
        | .ok (ps', some c) => RunResult.prepend [c] (runLines parse ps' rest)
        | .ok (ps', none) => runLines parse ps' rest
        | .error e => .terminated [] (some e)
      else runLines parse ps rest := by
  rfl

lemma runLines_append (parse : List UInt8 → Option Json) :
    ∀ (l1 l2 : List (List UInt8)) (ps : SseParser),
      runLines parse ps (l1 ++ l2) =
        match runLines parse ps l1 with
        | .terminated cs f => .terminated cs f
        | .pending cs ps' => RunResult.prepend cs (runLines parse ps' l2) := by
  intro l1
  induction l1 with
  | nil =>
    intro l2 ps
    simp [runLines, RunResult.prepend_nil]
  | cons line rest ih =>
    intro l2 ps
    rw [List.cons_append, runLines_cons, runLines_cons]
    by_cases h1 : line = []
    · rw [if_pos h1, if_pos h1]; exact ih l2 ps
    · rw [if_neg h1, if_neg h1]
      by_cases h2 : line = finishLine
      · rw [if_pos h2, if_pos h2]
        cases ps.finish <;> rfl
      · rw [if_neg h2, if_neg h2]
        by_cases h3 : line = toastLine
        · rw [if_pos h3, if_pos h3]; exact ih l2 ps
        · rw [if_neg h3, if_neg h3]
          by_cases h4 : dataMark.isPrefixOf line
          · rw [if_pos h4, if_pos h4]
            rcases hpd : process_data_line parse ps (line.drop 6) with e | ⟨ps2, oc⟩
            · rfl
            · rcases oc with _ | c
              · exact ih l2 ps2
              · dsimp only
                rw [ih l2 ps2]
                cases hrr : runLines parse ps2 rest with
                | terminated cs f => rfl
                | pending cs ps3 =>
                  rw [RunResult.prepend_prepend]
                  rfl
          · rw [if_neg h4, if_neg h4]; exact ih l2 ps

lemma deltaChunk_not_message (path : String) (v : Option Json) (m : Message) :
    deltaChunk path v ≠ some (.message m) := by
  unfold deltaChunk
  by_cases h1 : path = "response/content"
  · rw [if_pos h1]
    rcases v with _ | j
    · simp
    · cases j <;> simp [Json.asStr]
  · rw [if_neg h1]
    by_cases h2 : path = "response/thinking_content"
    · rw [if_pos h2]
      rcases v with _ | j
      · simp
      · cases j <;> simp [Json.asStr]
    · rw [if_neg h2]
      simp

lemma processUpdate_not_message (ps : SseParser) (data : StreamingUpdate) (fv : Json)
    (ps' : SseParser) (c : StreamChunk) (m : Message)
    (h : processUpdate ps data fv = .ok (ps', some c)) : c ≠ .message m := by
  intro hc
  subst hc
  unfold processUpdate at h
  dsimp only at h
  repeat' split at h
  all_goals simp_all [deltaChunk_not_message]

lemma process_data_line_not_message (parse : List UInt8 → Option Json) (ps : SseParser)
    (bytes : List UInt8) (ps' : SseParser) (c : StreamChunk) (m : Message)
    (h : process_data_line parse ps bytes = .ok (ps', some c)) : c ≠ .message m := by
  unfold process_data_line at h
  dsimp only at h
  repeat' split at h
  all_goals first
    | exact processUpdate_not_message _ _ _ _ _ m h
    | simp_all

lemma runLines_pending_no_message (parse : List UInt8 → Option Json) :
    ∀ (ls : List (List UInt8)) (ps : SseParser) (cs : List StreamChunk)
      (ps' : SseParser) (m : Message),
      runLines parse ps ls = .pending cs ps' → StreamChunk.message m ∉ cs := by
  intro ls
  induction ls with
  | nil =>
    intro ps cs ps' m h
    simp only [runLines, RunResult.pending.injEq] at h
    rw [← h.1]
    simp
  | cons line rest ih =>
    intro ps cs ps' m h
    rw [runLines_cons] at h
    by_cases h1 : line = []
    · rw [if_pos h1] at h; exact ih ps cs ps' m h
    · rw [if_neg h1] at h
      by_cases h2 : line = finishLine
      · rw [if_pos h2] at h
        split at h <;> simp_all
      · rw [if_neg h2] at h
        by_cases h3 : line = toastLine
        · rw [if_pos h3] at h; exact ih ps cs ps' m h
        · rw [if_neg h3] at h
          by_cases h4 : dataMark.isPrefixOf line
          · rw [if_pos h4] at h
            rcases hpd : process_data_line parse ps (line.drop 6) with e | ⟨ps2, oc⟩
            · rw [hpd] at h; simp_all
            · rw [hpd] at h
              rcases oc with _ | c
              · exact ih ps2 cs ps' m h
              · dsimp only at h
                cases hrr : runLines parse ps2 rest with
                | terminated cs2 f => rw [hrr] at h; simp [RunResult.prepend] at h
                | pending cs2 ps3 =>
                  rw [hrr] at h
                  simp only [RunResult.prepend, List.singleton_append,
                    RunResult.pending.injEq] at h
                  rw [← h.1]
                  intro hmem
                  rcases List.mem_cons.mp hmem with hc | hc
                  · exact process_data_line_not_message parse ps _ ps2 c m hpd hc.symm
                  · exact ih ps2 cs2 ps3 m hrr hc
          · rw [if_neg h4] at h; exact ih ps cs ps' m h

lemma dataLine_ne_nil (payload : List UInt8) : dataMark ++ payload ≠ [] := by
  simp [dataMark]

lemma dataLine_ne_finish (payload : List UInt8) : dataMark ++ payload ≠ finishLine := by
  intro h
  have hh := congrArg (fun l => l.headD 0) h
  simp [dataMark, finishLine] at hh

lemma dataLine_ne_toast (payload : List UInt8) : dataMark ++ payload ≠ toastLine := by
  intro h
  have hh := congrArg (fun l => l.headD 0) h
  simp [dataMark, toastLine] at hh

lemma dataMark_isPrefixOf_append (payload : List UInt8) :
    dataMark.isPrefixOf (dataMark ++ payload) = true := by
  have : dataMark <+: dataMark ++ payload := List.prefix_append dataMark payload
  exact List.isPrefixOf_iff_prefix.mpr this

lemma dataLine_drop (payload : List UInt8) : (dataMark ++ payload).drop 6 = payload := by
  rw [show 6 = dataMark.length from rfl]
  exact List.drop_left dataMark payload

/-! ## Claim C7 -/

/-- C7: once the line `event: finish` is reached in a stream that is still
pending, the parser is finalized: exactly one `FinalMessage` is appended as
the last item (or a single terminal failure is reported), no earlier chunk
is a `FinalMessage`, and whatever lines (bytes) follow contribute nothing. -/
theorem finish_precedence (parse : List UInt8 → Option Json)
    (ls1 ls2 : List (List UInt8)) (cs : List StreamChunk) (ps' : SseParser)
    (h : runLines parse SseParser.new ls1 = .pending cs ps') :
    (∀ m, ps'.finish = .ok m →
      runLines parse SseParser.new (ls1 ++ finishLine :: ls2) =
        .terminated (cs ++ [StreamChunk.message m]) none) ∧
    (∀ e, ps'.finish = .error e →
      runLines parse SseParser.new (ls1 ++ finishLine :: ls2) =
        .terminated cs (some e)) ∧
    (∀ m, StreamChunk.message m ∉ cs) := by
  have hbase : runLines parse SseParser.new (ls1 ++ finishLine :: ls2) =
      RunResult.prepend cs (runLines parse ps' (finishLine :: ls2)) := by
    rw [runLines_append parse ls1 (finishLine :: ls2) SseParser.new, h]
  have hfin : runLines parse ps' (finishLine :: ls2) =
      match ps'.finish with
      | .ok m => .terminated [.message m] none
      | .error e => .terminated [] (some e) := by
    rw [runLines_cons]
    rw [if_neg (by simp [finishLine]), if_pos rfl]
  refine ⟨?_, ?_, fun m => runLines_pending_no_message parse ls1 SseParser.new cs ps' m h⟩
  · intro m hm
    rw [hbase, hfin, hm]
    rfl
  · intro e he
    rw [hbase, hfin, he]
    simp [RunResult.prepend]

/-- C7 witness: a finish line after one content frame terminates with that
single final message last, and nothing after the finish line is decoded. -/
theorem finish_precedence_witness :
    runLines (fun _ => some (Json.obj [("p", Json.str "response/content"),
        ("v", Json.str "Hi")]))
      SseParser.new
      ([dataMark ++ [118]] ++ finishLine :: [[120, 121]]) =
      .terminated ([StreamChunk.content "Hi"] ++
        [StreamChunk.message ⟨none, none, none, none, "Hi", none, none, none⟩]) none := by
  have h := finish_precedence
    (fun _ => some (Json.obj [("p", Json.str "response/content"), ("v", Json.str "Hi")]))
    [dataMark ++ [118]] [[120, 121]] [StreamChunk.content "Hi"]
    ⟨⟨Json.obj [("response", Json.obj [("content", Json.str "Hi")])]⟩,
      some "response/content", none⟩ (by rfl)
  exact h.1 ⟨none, none, none, none, "Hi", none, none, none⟩ (by rfl)

/-! ## Claim C3 -/

/-- C3: a data frame whose payload is an error object
`{"type":"error","content": text}`, arriving at any position of a stream
that is still pending, terminates the stream with the failure
`API error: text`; no `FinalMessage` is ever emitted (neither before, as
shown by the no-message conjunct, nor after, since the stream ends), the
deltas already yielded are kept, and whatever lines follow are never
decoded. -/
theorem error_frame_aborts (parse : List UInt8 → Option Json)
    (ls1 ls2 : List (List UInt8)) (payload : List UInt8) (val : Json) (text : String)
    (cs : List StreamChunk) (ps' : SseParser)
    (h : runLines parse SseParser.new ls1 = .pending cs ps')
    (hparse : parse payload = some val)
    (htype : val.get? "type" = some (.str "error"))
    (htext : val.get? "content" = some (.str text)) :
    runLines parse SseParser.new (ls1 ++ (dataMark ++ payload) :: ls2) =
      .terminated cs (some ("API error: " ++ text)) ∧
    (∀ m, StreamChunk.message m ∉ cs) := by
  have herr : process_data_line parse ps' payload = .error ("API error: " ++ text) := by
    unfold process_data_line
    rw [hparse]
    dsimp only
    rw [htype, htext]
    rfl
  refine ⟨?_, fun m => runLines_pending_no_message parse ls1 SseParser.new cs ps' m h⟩
  rw [runLines_append parse ls1 ((dataMark ++ payload) :: ls2) SseParser.new, h]
  dsimp only
  rw [runLines_cons]
  rw [if_neg (dataLine_ne_nil payload), if_neg (dataLine_ne_finish payload),
    if_neg (dataLine_ne_toast payload), if_pos (dataMark_isPrefixOf_append payload)]
  rw [dataLine_drop, herr]
  simp [RunResult.prepend]

/-- C3 witness: an error frame after one successfully applied content patch
aborts the stream carrying the error text, keeping the already-yielded
delta and emitting no final message. -/
theorem error_frame_aborts_witness :
    runLines
      (fun bytes => if bytes = [101] then
          some (Json.obj [("type", Json.str "error"), ("content", Json.str "oops")])
        else some (Json.obj [("p", Json.str "response/content"), ("v", Json.str "Hi")]))
      SseParser.new
      ([dataMark ++ [118]] ++ (dataMark ++ [101]) :: [finishLine]) =
      .terminated [StreamChunk.content "Hi"] (some ("API error: " ++ "oops")) ∧
    (∀ m, StreamChunk.message m ∉ [StreamChunk.content "Hi"]) := by
  have h := error_frame_aborts
    (fun bytes => if bytes = [101] then
        some (Json.obj [("type", Json.str "error"), ("content", Json.str "oops")])
      else some (Json.obj [("p", Json.str "response/content"), ("v", Json.str "Hi")]))
    [dataMark ++ [118]] [finishLine] [101]
    (Json.obj [("type", Json.str "error"), ("content", Json.str "oops")]) "oops"
    [StreamChunk.content "Hi"]
    ⟨⟨Json.obj [("response", Json.obj [("content", Json.str "Hi")])]⟩,
      some "response/content", none⟩
    (by rfl) (by rfl) (by rfl) (by rfl)
  exact h

lemma splitLinesAux_append :
    ∀ (a : List UInt8) (acc b : List UInt8),
      splitLinesAux (a ++ b) acc =
        ((splitLinesAux a acc).1 ++ (splitLinesAux b (splitLinesAux a acc).2.reverse).1,
         (splitLinesAux b (splitLinesAux a acc).2.reverse).2) := by
  intro a
  induction a with
  | nil => intro acc b; simp [splitLinesAux]
  | cons x rest ih =>
    intro acc b
    by_cases hx : x = 10
    · subst hx
      simp [splitLinesAux, ih]
    · simp [splitLinesAux, hx, ih]

lemma splitLinesAux_rem_noNL :
    ∀ (bytes acc : List UInt8), (∀ c ∈ acc, c ≠ 10) →
      ∀ c ∈ (splitLinesAux bytes acc).2, c ≠ 10 := by
  intro bytes
  induction bytes with
  | nil =>
    intro acc hacc c hc
    simp only [splitLinesAux, List.mem_reverse] at hc
    exact hacc c hc
  | cons x rest ih =>
    intro acc hacc c hc
    by_cases hx : x = 10
    · subst hx
      simp only [splitLinesAux, if_pos rfl] at hc
      exact ih [] (by simp) c hc
    · simp only [splitLinesAux, if_neg hx] at hc
      refine ih (x :: acc) ?_ c hc
      intro d hd
      rcases List.mem_cons.mp hd with hd | hd
      · subst hd; exact hx
      · exact hacc d hd

lemma splitLinesAux_noNL_shift :
    ∀ (y : List UInt8), (∀ c ∈ y, c ≠ 10) → ∀ (x acc : List UInt8),
      splitLinesAux (y ++ x) acc = splitLinesAux x (y.reverse ++ acc) := by
  intro y
  induction y with
  | nil => intro _ x acc; simp
  | cons a y ih =>
    intro hy x acc
    have ha : a ≠ 10 := hy a (by simp)
    rw [List.cons_append]
    show (if a = 10 then _ else splitLinesAux (y ++ x) (a :: acc)) = _
    rw [if_neg ha, ih (fun c hc => hy c (List.mem_cons_of_mem a hc)) x (a :: acc)]
    simp

lemma splitLines_noNL (bytes : List UInt8) (h : ∀ c ∈ bytes, c ≠ 10) :
    splitLines bytes = ([], bytes) := by
  have hs := splitLinesAux_noNL_shift bytes h [] []
  simpa [splitLines, splitLinesAux] using hs

lemma runBlocks_cons (parse : List UInt8 → Option Json) (ps : SseParser)
    (buf b : List UInt8) (rest : List (List UInt8)) :
    runBlocks parse ps buf (b :: rest) =
      match runLines parse ps (splitLines (buf ++ b)).1 with
      | .terminated cs f => ⟨cs, f⟩
      | .pending cs ps' =>
        ⟨cs ++ (runBlocks parse ps' (splitLines (buf ++ b)).2 rest).chunks,
         (runBlocks parse ps' (splitLines (buf ++ b)).2 rest).fault⟩ := by
  rfl

lemma runBlocks_eq_runAll (parse : List UInt8 → Option Json) :
    ∀ (blocks : List (List UInt8)) (ps : SseParser) (buf : List UInt8),
      (∀ c ∈ buf, c ≠ 10) →
      runBlocks parse ps buf blocks = runAll parse ps (buf ++ blocks.flatten) := by
  intro blocks
  induction blocks with
  | nil =>
    intro ps buf hbuf
    show (⟨[], none⟩ : StreamOut) = runAll parse ps (buf ++ [].flatten)
    unfold runAll
    rw [List.flatten_nil, List.append_nil, splitLines_noNL buf hbuf]
    rfl
  | cons b rest ih =>
    intro ps buf hbuf
    rw [runBlocks_cons]
    have hrem : ∀ c ∈ (splitLines (buf ++ b)).2, c ≠ 10 :=
      splitLinesAux_rem_noNL (buf ++ b) [] (by simp)
    have hL2 : splitLines ((splitLines (buf ++ b)).2 ++ rest.flatten) =
        splitLinesAux rest.flatten (splitLines (buf ++ b)).2.reverse := by
      rw [splitLines, splitLinesAux_noNL_shift (splitLines (buf ++ b)).2 hrem rest.flatten []]
      rw [List.append_nil]
    have hsplit : (splitLines (buf ++ (b :: rest).flatten)).1 =
        (splitLines (buf ++ b)).1 ++
          (splitLines ((splitLines (buf ++ b)).2 ++ rest.flatten)).1 := by
      rw [List.flatten_cons, show buf ++ (b ++ rest.flatten) = (buf ++ b) ++ rest.flatten by
        rw [List.append_assoc]]
      rw [splitLines, splitLinesAux_append (buf ++ b) [] rest.flatten, hL2]
      rfl
    conv_rhs => rw [runAll, hsplit]
    rw [runLines_append parse (splitLines (buf ++ b)).1
      (splitLines ((splitLines (buf ++ b)).2 ++ rest.flatten)).1 ps]
    cases hr : runLines parse ps (splitLines (buf ++ b)).1 with
    | terminated cs f => rfl
    | pending cs ps2 =>
      dsimp only
      rw [ih ps2 (splitLines (buf ++ b)).2 hrem]
      unfold runAll
      cases runLines parse ps2 (splitLines ((splitLines (buf ++ b)).2 ++ rest.flatten)).1 with
      | terminated cs2 f2 => rfl
      | pending cs2 ps3 => rfl

/-! ## Claim C6 -/

/-- C6: the frame decoder is chunk-boundary independent — feeding a byte
sequence split into arbitrary blocks yields exactly the same stream as
feeding it as one whole block; moreover blank lines are ignored,
unrecognized lines are ignored, and newline-free trailing data stays
buffered producing no lines. -/
theorem decoder_chunk_boundary_independence (parse : List UInt8 → Option Json)
    (blocks : List (List UInt8)) :
    response_to_chunk_stream parse blocks =
      response_to_chunk_stream parse [blocks.flatten] ∧
    (∀ ps rest, runLines parse ps ([] :: rest) = runLines parse ps rest) ∧
    (∀ ps line rest, line ≠ finishLine → line ≠ toastLine →
      dataMark.isPrefixOf line = false →
      runLines parse ps (line :: rest) = runLines parse ps rest) ∧
    (∀ bytes, (∀ c ∈ bytes, c ≠ 10) → splitLines bytes = ([], bytes)) := by
  refine ⟨?_, ?_, ?_, fun bytes h => splitLines_noNL bytes h⟩
  · unfold response_to_chunk_stream
    rw [runBlocks_eq_runAll parse blocks SseParser.new [] (by simp),
      runBlocks_eq_runAll parse [blocks.flatten] SseParser.new [] (by simp)]
    simp
  · intro ps rest
    rw [runLines_cons, if_pos rfl]
  · intro ps line rest hf ht hd
    by_cases h0 : line = []
    · rw [runLines_cons, if_pos h0]
    · rw [runLines_cons, if_neg h0, if_neg hf, if_neg ht, hd]
      simp

/-- C6 witness: a concrete split into two blocks equals the whole-buffer
run; a blank line, an unrecognized line and newline-free trailing bytes are
all inert. -/
theorem decoder_chunk_boundary_independence_witness :
    response_to_chunk_stream (fun _ => none) [[104, 105, 10], [104]] =
      response_to_chunk_stream (fun _ => none)
        [([[104, 105, 10], [104]] : List (List UInt8)).flatten] ∧
    runLines (fun _ => none) SseParser.new ([] :: []) =
      runLines (fun _ => none) SseParser.new [] ∧
    runLines (fun _ => none) SseParser.new ([120] :: []) =
      runLines (fun _ => none) SseParser.new [] ∧
    splitLines [104] = ([], [104]) := by
  have h := decoder_chunk_boundary_independence (fun _ => none) [[104, 105, 10], [104]]
  exact ⟨h.1, h.2.1 SseParser.new [], h.2.2.1 SseParser.new [120] [] (by decide) (by decide)
    (by decide), h.2.2.2 [104] (by decide)⟩

/-! ## Claim C1 -/

lemma runInner_deltas :
    ∀ (ds : List StreamChunk) (m : Message) (f : Option String),
      (∀ c ∈ ds, ∀ mm, c ≠ .message mm) →
      runInner (ds ++ [.message m]) f =
        if m.status = some "INCOMPLETE" then (ds, .continueWith m.message_id)
        else (ds ++ [.message m], .terminal m) := by
  intro ds
  induction ds with
  | nil =>
    intro m f _
    by_cases hst : m.status = some "INCOMPLETE"
    · simp [runInner, hst]
    · simp [runInner, hst]
  | cons c rest ih =>
    intro m f hd
    have hc : ∀ mm, c ≠ .message mm := hd c (by simp)
    have hrest : ∀ c' ∈ rest, ∀ mm, c' ≠ .message mm :=
      fun c' hc' => hd c' (List.mem_cons_of_mem c hc')
    cases c with
    | content t =>
      rw [List.cons_append, show runInner (.content t :: (rest ++ [.message m])) f =
        ((.content t) :: (runInner (rest ++ [.message m]) f).1,
          (runInner (rest ++ [.message m]) f).2) from rfl]
      rw [ih m f hrest]
      by_cases hst : m.status = some "INCOMPLETE" <;> simp [hst]
    | thinking t =>
      rw [List.cons_append, show runInner (.thinking t :: (rest ++ [.message m])) f =
        ((.thinking t) :: (runInner (rest ++ [.message m]) f).1,
          (runInner (rest ++ [.message m]) f).2) from rfl]
      rw [ih m f hrest]
      by_cases hst : m.status = some "INCOMPLETE" <;> simp [hst]
    | message mm => exact absurd rfl (hc mm)

/-- C1: an underlying stream whose final message has status `INCOMPLETE`
makes `complete_stream` issue exactly one continuation request scoped to
that message's identifier; the incomplete final message itself is never
forwarded, and the caller sees both streams' deltas in arrival order
followed by the second stream's final message as the only terminal chunk. -/
theorem complete_stream_single_continuation (cont : Int → StreamOut) (fuel : Nat)
    (ds1 ds2 : List StreamChunk) (m1 m2 : Message) (id : Int)
    (hd1 : ∀ c ∈ ds1, ∀ m, c ≠ StreamChunk.message m)
    (hd2 : ∀ c ∈ ds2, ∀ m, c ≠ StreamChunk.message m)
    (h1 : m1.status = some "INCOMPLETE")
    (hid : m1.message_id = some id)
    (h2 : m2.status ≠ some "INCOMPLETE")
    (hc : cont id = ⟨ds2 ++ [StreamChunk.message m2], none⟩) :
    complete_stream cont (fuel + 1) ⟨ds1 ++ [StreamChunk.message m1], none⟩ =
      ⟨ds1 ++ (ds2 ++ [StreamChunk.message m2]), [id], none⟩ ∧
    StreamChunk.message m1 ∉ ds1 ++ (ds2 ++ [StreamChunk.message m2]) := by
  constructor
  · rw [complete_stream]
    dsimp only
    rw [runInner_deltas ds1 m1 none hd1, if_pos h1, hid]
    dsimp only
    rw [complete_stream]
    dsimp only
    rw [hc]
    dsimp only
    rw [runInner_deltas ds2 m2 none hd2, if_neg h2]
  · intro hmem
    rcases List.mem_append.mp hmem with hm | hm
    · exact hd1 _ hm m1 rfl
    · rcases List.mem_append.mp hm with hm | hm
      · exact hd2 _ hm m1 rfl
      · have : StreamChunk.message m1 = StreamChunk.message m2 := List.mem_singleton.mp hm
        have : m1 = m2 := by injection this
        exact h2 (this ▸ h1)

/-- C1 witness: one incomplete stream with a content delta, one completing
continuation stream. -/
theorem complete_stream_single_continuation_witness :
    complete_stream
      (fun _ => ⟨[StreamChunk.content "b",
        StreamChunk.message ⟨some 8, none, none, none, "ab", none, some "FINISHED", none⟩],
        none⟩) 1
      ⟨[StreamChunk.content "a",
        StreamChunk.message ⟨some 7, none, none, none, "a", none, some "INCOMPLETE", none⟩],
        none⟩ =
      ⟨[StreamChunk.content "a"] ++ ([StreamChunk.content "b"] ++
        [StreamChunk.message ⟨some 8, none, none, none, "ab", none, some "FINISHED", none⟩]),
        [7], none⟩ ∧
    StreamChunk.message ⟨some 7, none, none, none, "a", none, some "INCOMPLETE", none⟩ ∉
      [StreamChunk.content "a"] ++ ([StreamChunk.content "b"] ++
        [StreamChunk.message ⟨some 8, none, none, none, "ab", none, some "FINISHED", none⟩]) := by
  have h := complete_stream_single_continuation
    (fun _ => ⟨[StreamChunk.content "b",
      StreamChunk.message ⟨some 8, none, none, none, "ab", none, some "FINISHED", none⟩],
      none⟩) 0
    [StreamChunk.content "a"] [StreamChunk.content "b"]
    ⟨some 7, none, none, none, "a", none, some "INCOMPLETE", none⟩
    ⟨some 8, none, none, none, "ab", none, some "FINISHED", none⟩ 7
    (by intro c hc m; simp at hc; subst hc; simp)
    (by intro c hc m; simp at hc; subst hc; simp)
    rfl rfl (by simp) rfl
  simpa using h

/-! ## Claim C9 -/

/-- C9 (code bug): with a module whose allocator fails on the first call,
`solve_challenge` exits through the `?` early-return without reversing the
16-byte stack-pointer adjustment: starting from sp = 1024 the call fails
with an error yet leaves sp = 1008, contradicting the claim that the
adjustment is reversed on every failure path. -/
theorem solve_challenge_alloc_failure_leaks_stack :
    (solve_challenge ⟨fun _ => none, true, 1, 0⟩ ⟨1024, 0⟩
      ⟨"s", 1, "c", 1, "a", "g", "t"⟩).1.sp = 1008 ∧
    (solve_challenge ⟨fun _ => none, true, 1, 0⟩ ⟨1024, 0⟩
      ⟨"s", 1, "c", 1, "a", "g", "t"⟩).2 = .error "alloc failed" ∧
    (1008 : Int) ≠ 1024 := by
  refine ⟨rfl, rfl, by decide⟩
